import Mathlib

/-!
Verification of the `textblocks` crate (src/lib.rs): a text-segmentation
library splitting a document into blocks separated by a configurable
delimiter, with line- and block-transform wrappers.

Strings are modelled as `List Char`.  `isRustWhitespace` is Rust's
`char::is_whitespace` (the Unicode White_Space property), `trim` is
`str::trim`, `splitOnStr` is `str::split` with a string pattern
(leftmost, non-overlapping matches; an empty pattern yields empty
strings at both ends plus each character), and `List.contains '\r'`
is `str::contains('\r')`.  The `todo!` panic on the `Pattern` variant
is modelled by `Except.error`.
-/

namespace Textblocks

/-- Rust `char::is_whitespace`: the Unicode White_Space property. -/
def isRustWhitespace (c : Char) : Bool :=
  let n := c.toNat
  n = 0x20 || (0x9 ≤ n && n ≤ 0xD) || n = 0x85 || n = 0xA0 || n = 0x1680 ||
    (0x2000 ≤ n && n ≤ 0x200A) || n = 0x2028 || n = 0x2029 || n = 0x202F ||
    n = 0x205F || n = 0x3000

/-- Rust `str::trim`: remove leading and trailing whitespace. -/
def trim (s : List Char) : List Char :=
  List.rdropWhile isRustWhitespace (List.dropWhile isRustWhitespace s)

/-- Index of the first (leftmost) occurrence of pattern `p` in `s`,
`none` if `p` does not occur. -/
def firstMatch (p : List Char) : List Char → Option Nat
  | [] => if p.isPrefixOf [] then some 0 else none
  | c :: t => if p.isPrefixOf (c :: t) then some 0 else (firstMatch p t).map (· + 1)

/-- Worker for `splitOnStr` on a non-empty pattern: repeatedly cut at the
leftmost occurrence of `p`.  `fuel ≥ s.length` suffices because every
step consumes at least `p.length ≥ 1` characters. -/
def splitGo (p : List Char) : Nat → List Char → List (List Char)
  | 0, s => [s]
  | fuel + 1, s =>
    match firstMatch p s with
    | none => [s]
    | some i => s.take i :: splitGo p fuel (s.drop (i + p.length))

/-- Rust `str::split` with a string pattern: split on leftmost,
non-overlapping occurrences; the empty pattern matches at every char
boundary, yielding an empty string at each end plus every character. -/
def splitOnStr (p s : List Char) : List (List Char) :=
  if p = [] then [] :: ((s.map fun c => [c]) ++ [[]])
  else splitGo p s.length s

/-- Join a list of pieces with a separator (the inverse of `splitOnStr`). -/
def joinSep (sep : List Char) : List (List Char) → List Char
  | [] => []
  | [x] => x
  | x :: y :: rest => x ++ sep ++ joinSep sep (y :: rest)

/-- `BlockDelimiter` from src/lib.rs: generic double line (the default),
a custom delimiter string, or an unimplemented regex pattern. -/
inductive BlockDelimiter where
  | DoubleLineGeneric : BlockDelimiter
  | Delimiter : List Char → BlockDelimiter
  | Pattern : List Char → BlockDelimiter

/-- `fn delimiters(crlf, block_delimiter) -> (String, String)` from
src/lib.rs.  The `todo!("Pattern / Regex not implemented yet")` panic is
modelled as `Except.error`. -/
def delimiters (crlf : Bool) (blockDelimiter : BlockDelimiter) :
    Except String (List Char × List Char) :=
  let lineDelimiter : List Char := if crlf then ['\r', '\n'] else ['\n']
  match blockDelimiter, crlf with
  | .Pattern _, _ => .error "Pattern / Regex not implemented yet"
  | .DoubleLineGeneric, true => .ok (lineDelimiter, ['\r', '\n', '\r', '\n'])
  | .DoubleLineGeneric, false => .ok (lineDelimiter, ['\n', '\n'])
  | .Delimiter d, _ => .ok (lineDelimiter, d)

/-- `TextBlocks::as_blocks` from src/lib.rs:
`s.trim().split(&block_delimiter).map(|x| x.trim().split(&line_delimiter).collect()).collect()`,
after resolving delimiters from `s.contains('\r')` and returning `[]`
for the empty string. -/
def asBlocks (s : List Char) (blockDelimiter : BlockDelimiter) :
    Except String (List (List (List Char))) :=
  match delimiters (s.contains '\r') blockDelimiter with
  | .error e => .error e
  | .ok (lineDelimiter, blockDelim) =>
    if s = [] then .ok []
    else .ok ((splitOnStr blockDelim (trim s)).map fun x =>
      splitOnStr lineDelimiter (trim x))

/-- `TextBlocks::block_parse_lines` from src/lib.rs: like `as_blocks` but
every line is mapped through `lineParserFn`. -/
def blockParseLines {INNER : Type _} (s : List Char) (blockDelimiter : BlockDelimiter)
    (lineParserFn : List Char → INNER) : Except String (List (List INNER)) :=
  match delimiters (s.contains '\r') blockDelimiter with
  | .error e => .error e
  | .ok (lineDelimiter, blockDelim) =>
    if s = [] then .ok []
    else .ok ((splitOnStr blockDelim (trim s)).map fun x =>
      (splitOnStr lineDelimiter (trim x)).map lineParserFn)

/-- `TextBlocks::block_parse` from src/lib.rs: each block segment is split
on the line delimiter (note: the segment is NOT trimmed here, unlike in
`as_blocks`), the lines are mapped through `lineParserFn`, and
`blockParserFn` is applied once to each block's sequence. -/
def blockParse {INNER BLOCK : Type _} (s : List Char) (blockDelimiter : BlockDelimiter)
    (lineParserFn : List Char → INNER) (blockParserFn : List INNER → BLOCK) :
    Except String (List BLOCK) :=
  match delimiters (s.contains '\r') blockDelimiter with
  | .error e => .error e
  | .ok (lineDelimiter, blockDelim) =>
    if s = [] then .ok []
    else .ok (((splitOnStr blockDelim (trim s)).map fun block =>
      (splitOnStr lineDelimiter block).map lineParserFn).map blockParserFn)

/-! ### Infrastructure lemmas about `firstMatch`, `splitGo`, `splitOnStr`, `joinSep` -/

theorem firstMatch_some_isPrefix {p : List Char} :
    ∀ {s : List Char} {i : Nat}, firstMatch p s = some i → p <+: s.drop i := by
  intro s
  induction s with
  | nil =>
    intro i h
    by_cases hp : p.isPrefixOf [] = true
    · simp [firstMatch, hp] at h
      subst h
      simpa using List.isPrefixOf_iff_prefix.mp hp
    · simp [firstMatch, hp] at h
  | cons c t ih =>
    intro i h
    by_cases hp : p.isPrefixOf (c :: t) = true
    · simp [firstMatch, hp] at h
      subst h
      simpa using List.isPrefixOf_iff_prefix.mp hp
    · simp [firstMatch, hp] at h
      obtain ⟨j, hj, hji⟩ := h
      subst hji
      rw [List.drop_succ_cons]
      exact ih hj

theorem firstMatch_bound {p : List Char} :
    ∀ {s : List Char} {i : Nat}, firstMatch p s = some i → i + p.length ≤ s.length := by
  intro s
  induction s with
  | nil =>
    intro i h
    by_cases hp : p.isPrefixOf [] = true
    · simp [firstMatch, hp] at h
      subst h
      have : p <+: ([] : List Char) := List.isPrefixOf_iff_prefix.mp hp
      simpa using this.length_le
    · simp [firstMatch, hp] at h
  | cons c t ih =>
    intro i h
    by_cases hp : p.isPrefixOf (c :: t) = true
    · simp [firstMatch, hp] at h
      subst h
      have : p <+: (c :: t) := List.isPrefixOf_iff_prefix.mp hp
      simpa using this.length_le
    · simp [firstMatch, hp] at h
      obtain ⟨j, hj, hji⟩ := h
      subst hji
      have := ih hj
      simp only [List.length_cons]
      omega

theorem infix_of_firstMatch_some {p s : List Char} {i : Nat}
    (h : firstMatch p s = some i) : p <:+: s :=
  (firstMatch_some_isPrefix h).isInfix.trans (List.drop_suffix i s).isInfix

theorem firstMatch_eq_none_of_not_occ {p s : List Char} (h : ¬ p <:+: s) :
    firstMatch p s = none := by
  cases hm : firstMatch p s with
  | none => rfl
  | some i => exact absurd (infix_of_firstMatch_some hm) h

theorem splitGo_ne_nil (p : List Char) (fuel : Nat) (s : List Char) :
    splitGo p fuel s ≠ [] := by
  cases fuel with
  | zero => simp [splitGo]
  | succ fuel =>
    cases h : firstMatch p s with
    | none => simp [splitGo, h]
    | some i => simp [splitGo, h]

theorem splitOnStr_ne_nil (p s : List Char) : splitOnStr p s ≠ [] := by
  unfold splitOnStr
  by_cases hp : p = []
  · simp [hp]
  · simp only [hp, if_false]
    exact splitGo_ne_nil p s.length s

theorem splitGo_of_none (p : List Char) (fuel : Nat) (s : List Char)
    (h : firstMatch p s = none) : splitGo p fuel s = [s] := by
  cases fuel with
  | zero => rfl
  | succ fuel => simp [splitGo, h]

theorem joinSep_cons (sep x : List Char) (l : List (List Char)) (hl : l ≠ []) :
    joinSep sep (x :: l) = x ++ sep ++ joinSep sep l := by
  cases l with
  | nil => exact absurd rfl hl
  | cons y rest => rfl

theorem joinSep_splitGo {p : List Char} (hp : p ≠ []) :
    ∀ (fuel : Nat) (s : List Char), s.length ≤ fuel →
      joinSep p (splitGo p fuel s) = s := by
  intro fuel
  induction fuel with
  | zero =>
    intro s hs
    have : s = [] := List.length_eq_zero.mp (Nat.le_zero.mp hs)
    subst this
    rfl
  | succ fuel ih =>
    intro s hs
    cases h : firstMatch p s with
    | none => simp [splitGo, h, joinSep]
    | some i =>
      have hpre := firstMatch_some_isPrefix h
      have hb := firstMatch_bound h
      have hplen : 0 < p.length := List.length_pos.mpr hp
      obtain ⟨t, ht⟩ := hpre
      have hdt : List.drop (i + p.length) s = t := by
        have h1 : List.drop p.length (List.drop i s) = List.drop (i + p.length) s :=
          List.drop_drop p.length i s
        rw [← ht, List.drop_left] at h1
        exact h1.symm
      have hlen : (List.drop (i + p.length) s).length ≤ fuel := by
        rw [List.length_drop]
        omega
      rw [splitGo]
      simp only [h]
      rw [joinSep_cons _ _ _ (splitGo_ne_nil p fuel _), ih _ hlen,
        List.append_assoc, hdt, ht, List.take_append_drop]

theorem joinSep_nil_map (s : List Char) :
    joinSep [] ((s.map fun c => [c]) ++ [[]]) = s := by
  induction s with
  | nil => rfl
  | cons c t ih =>
    have hne : (t.map fun c => [c]) ++ [[]] ≠ [] :=
      List.append_ne_nil_of_right_ne_nil _ (by simp)
    simp only [List.map_cons, List.cons_append]
    rw [joinSep_cons _ _ _ hne, ih]
    simp

theorem joinSep_splitOnStr (p s : List Char) : joinSep p (splitOnStr p s) = s := by
  unfold splitOnStr
  by_cases hp : p = []
  · simp only [hp, if_true]
    subst hp
    have hne : (s.map fun c => [c]) ++ [[]] ≠ [] :=
      List.append_ne_nil_of_right_ne_nil _ (by simp)
    rw [joinSep_cons _ _ _ hne, joinSep_nil_map]
    simp
  · simp only [hp, if_false]
    exact joinSep_splitGo hp s.length s (Nat.le_refl _)

theorem splitOnStr_eq_single {p s : List Char} (h : ¬ p <:+: s) :
    splitOnStr p s = [s] := by
  have hp : p ≠ [] := by
    intro hnil
    exact h (hnil ▸ List.nil_infix)
  unfold splitOnStr
  simp only [hp, if_false]
  exact splitGo_of_none p s.length s (firstMatch_eq_none_of_not_occ h)

/-! ### Infrastructure lemmas about `trim` -/

theorem trim_infix_self (s : List Char) : trim s <:+: s :=
  (List.rdropWhile_prefix isRustWhitespace _).isInfix.trans
    (List.dropWhile_suffix isRustWhitespace).isInfix

theorem dropWhile_eq_self_of_isPrefix {p : Char → Bool} {x y : List Char}
    (hpre : y <+: x) (hx : List.dropWhile p x = x) : List.dropWhile p y = y := by
  cases y with
  | nil => rfl
  | cons c y2 =>
    obtain ⟨t, ht⟩ := hpre
    by_cases hc : p c = true
    · subst ht
      rw [List.cons_append, List.dropWhile_cons, if_pos hc] at hx
      have hle : (List.dropWhile p (y2 ++ t)).length ≤ (y2 ++ t).length :=
        (List.dropWhile_suffix p).length_le
      rw [hx] at hle
      simp at hle
    · rw [List.dropWhile_cons, if_neg hc]

theorem trim_idem (s : List Char) : trim (trim s) = trim s := by
  unfold trim
  have hx : List.dropWhile isRustWhitespace (List.dropWhile isRustWhitespace s) =
      List.dropWhile isRustWhitespace s := List.dropWhile_idempotent _ _
  rw [dropWhile_eq_self_of_isPrefix (List.rdropWhile_prefix _ _) hx,
    List.rdropWhile_idempotent]

theorem trim_eq_nil {s : List Char} (h : ∀ c ∈ s, isRustWhitespace c = true) :
    trim s = [] := by
  unfold trim
  rw [List.dropWhile_eq_nil_iff.mpr h]
  exact List.rdropWhile_nil _

theorem dropWhile_append_of_all {p : Char → Bool} (a b : List Char)
    (h : ∀ c ∈ a, p c = true) : List.dropWhile p (a ++ b) = List.dropWhile p b := by
  induction a with
  | nil => rfl
  | cons c t ih =>
    have hc : p c = true := h c (by simp)
    rw [List.cons_append, List.dropWhile_cons, if_pos hc]
    exact ih fun x hx => h x (by simp [hx])

theorem dropWhile_append_of_ne_nil {p : Char → Bool} {a : List Char} (b : List Char)
    (h : List.dropWhile p a ≠ []) :
    List.dropWhile p (a ++ b) = List.dropWhile p a ++ b := by
  induction a with
  | nil => exact absurd rfl h
  | cons c t ih =>
    by_cases hc : p c = true
    · rw [List.dropWhile_cons, if_pos hc] at h
      rw [List.cons_append, List.dropWhile_cons, if_pos hc, List.dropWhile_cons,
        if_pos hc]
      exact ih h
    · rw [List.cons_append, List.dropWhile_cons, if_neg hc, List.dropWhile_cons,
        if_neg hc, List.cons_append]

theorem rdropWhile_append_of_all {p : Char → Bool} (x w : List Char)
    (h : ∀ c ∈ w, p c = true) : List.rdropWhile p (x ++ w) = List.rdropWhile p x := by
  unfold List.rdropWhile
  rw [List.reverse_append, dropWhile_append_of_all]
  intro c hc
  exact h c (List.mem_reverse.mp hc)

theorem trim_append_ws {w : List Char} (s : List Char)
    (h : ∀ c ∈ w, isRustWhitespace c = true) : trim (s ++ w) = trim s := by
  by_cases hs : List.dropWhile isRustWhitespace s = []
  · have hall : ∀ c ∈ s, isRustWhitespace c = true := List.dropWhile_eq_nil_iff.mp hs
    have h1 : trim (s ++ w) = [] := trim_eq_nil (by
      intro c hc
      rcases List.mem_append.mp hc with hc1 | hc2
      · exact hall c hc1
      · exact h c hc2)
    have h2 : trim s = [] := trim_eq_nil hall
    rw [h1, h2]
  · unfold trim
    rw [dropWhile_append_of_ne_nil w hs, rdropWhile_append_of_all _ w h]

/-! ### Infrastructure lemmas about `delimiters` -/

theorem delimiters_ok {spec : BlockDelimiter} (crlf : Bool)
    (h : ∀ q, spec ≠ BlockDelimiter.Pattern q) :
    ∃ ld bd, delimiters crlf spec = .ok (ld, bd) := by
  cases spec with
  | DoubleLineGeneric => cases crlf <;> exact ⟨_, _, rfl⟩
  | Delimiter d => cases crlf <;> exact ⟨_, _, rfl⟩
  | Pattern q => exact absurd rfl (h q)

theorem delimiters_lineDelimiter {spec : BlockDelimiter} {crlf : Bool}
    {ld bd : List Char} (h : delimiters crlf spec = .ok (ld, bd)) :
    ld = if crlf then ['\r', '\n'] else ['\n'] := by
  cases spec with
  | DoubleLineGeneric =>
    cases crlf <;> simp [delimiters] at h <;> exact h.1.symm
  | Delimiter d =>
    cases crlf <;> simp [delimiters] at h <;> exact h.1.symm
  | Pattern q => simp [delimiters] at h

theorem delimiters_ld_ne_nil {spec : BlockDelimiter} {crlf : Bool}
    {ld bd : List Char} (h : delimiters crlf spec = .ok (ld, bd)) : ld ≠ [] := by
  rw [delimiters_lineDelimiter h]
  cases crlf <;> simp

/-! ### Unfolding helpers for the three operations -/

theorem trim_nil : trim [] = [] := rfl

theorem splitOnStr_nil {p : List Char} (hp : p ≠ []) : splitOnStr p [] = [[]] := by
  unfold splitOnStr
  simp only [hp, if_false]
  rfl

theorem asBlocks_eq_of_ok {s ld bd : List Char} {spec : BlockDelimiter}
    (hres : delimiters (s.contains '\r') spec = .ok (ld, bd)) (hs : s ≠ []) :
    asBlocks s spec =
      .ok ((splitOnStr bd (trim s)).map fun x => splitOnStr ld (trim x)) := by
  unfold asBlocks
  rw [hres]
  simp [hs]

theorem blockParseLines_eq_of_ok {s ld bd : List Char} {spec : BlockDelimiter}
    {A : Type _} (f : List Char → A)
    (hres : delimiters (s.contains '\r') spec = .ok (ld, bd)) (hs : s ≠ []) :
    blockParseLines s spec f =
      .ok ((splitOnStr bd (trim s)).map fun x => (splitOnStr ld (trim x)).map f) := by
  unfold blockParseLines
  rw [hres]
  simp [hs]

theorem blockParse_eq_of_ok {s ld bd : List Char} {spec : BlockDelimiter}
    {A B : Type _} (lp : List Char → A) (bp : List A → B)
    (hres : delimiters (s.contains '\r') spec = .ok (ld, bd)) (hs : s ≠ []) :
    blockParse s spec lp bp =
      .ok (((splitOnStr bd (trim s)).map fun block =>
        (splitOnStr ld block).map lp).map bp) := by
  unfold blockParse
  rw [hres]
  simp [hs]

theorem ok_ne_ok {ε α : Type _} {a b : α} (h : a ≠ b) :
    (Except.ok a : Except ε α) ≠ Except.ok b := by
  intro he
  exact h (Except.ok.inj he)

/-! ### Claim theorems -/

/-- C5: for every document (including the empty one) and every line- and
block-transform, all three operations with the `Pattern` delimiter variant
fail with the explicit "not implemented" error; they never fall back to
another delimiter strategy and never return a result. -/
theorem claim5_pattern_fails (s q : List Char) {A B : Type}
    (lp : List Char → A) (bp : List A → B) :
    asBlocks s (.Pattern q) = .error "Pattern / Regex not implemented yet" ∧
    blockParseLines s (.Pattern q) lp = .error "Pattern / Regex not implemented yet" ∧
    blockParse s (.Pattern q) lp bp = .error "Pattern / Regex not implemented yet" := by
  unfold asBlocks blockParseLines blockParse
  cases hc : s.contains '\r' <;> exact ⟨rfl, rfl, rfl⟩

/-- C8: delimiter resolution is a pure function of carriage-return presence
and the delimiter spec, following the rule table: `DoubleLineGeneric`
resolves to line `"\r\n"` / block `"\r\n\r\n"` iff the document contains a
carriage return, else `"\n"` / `"\n\n"`; an explicit delimiter is used
verbatim as the block delimiter while the line delimiter still follows the
whole-document carriage-return rule. -/
theorem claim8_delimiters_resolution (d dlt : List Char) :
    delimiters (d.contains '\r') .DoubleLineGeneric =
      .ok (if d.contains '\r' then (['\r', '\n'], ['\r', '\n', '\r', '\n'])
        else (['\n'], ['\n', '\n'])) ∧
    delimiters (d.contains '\r') (.Delimiter dlt) =
      .ok ((if d.contains '\r' then ['\r', '\n'] else ['\n']), dlt) := by
  cases hc : d.contains '\r' <;> exact ⟨rfl, rfl⟩

/-- C6 counterexample: with the `Pattern` delimiter variant, `asBlocks` on
the empty document does NOT return an empty sequence — delimiter resolution
fails first (as C5 requires), so the claim's "every delimiter spec" is too
strong. -/
theorem claim6_counterexample :
    asBlocks [] (.Pattern []) = .error "Pattern / Regex not implemented yet" ∧
    asBlocks [] (.Pattern []) ≠ .ok [] := by
  refine ⟨rfl, ?_⟩
  intro h
  rw [show asBlocks [] (.Pattern []) = .error "Pattern / Regex not implemented yet"
    from rfl] at h
  exact Except.noConfusion h

/-- C6 (amended): for the empty document and every delimiter spec OTHER THAN
`Pattern`, all three operations return an empty sequence without invoking
either transform; delimiter resolution still occurs but does not affect the
result. -/
theorem claim6_empty_doc (spec : BlockDelimiter) {A B : Type}
    (lp : List Char → A) (bp : List A → B)
    (h : ∀ q, spec ≠ BlockDelimiter.Pattern q) :
    asBlocks [] spec = .ok [] ∧ blockParseLines [] spec lp = .ok [] ∧
    blockParse [] spec lp bp = .ok [] := by
  obtain ⟨ld, bd, hok⟩ := delimiters_ok false h
  have hc : List.contains ([] : List Char) '\r' = false := rfl
  unfold asBlocks blockParseLines blockParse
  rw [hc, hok]
  simp

/-- C6 witness: the amended theorem applied to the default delimiter spec
and identity transforms. -/
theorem claim6_witness :
    (∀ q, BlockDelimiter.DoubleLineGeneric ≠ BlockDelimiter.Pattern q) ∧
    (asBlocks [] .DoubleLineGeneric = .ok [] ∧
     blockParseLines [] .DoubleLineGeneric (fun l => l) = .ok [] ∧
     blockParse [] .DoubleLineGeneric (fun l => l) (fun b => b) = .ok []) :=
  ⟨fun _ h => BlockDelimiter.noConfusion h,
   claim6_empty_doc _ _ _ (fun _ h => BlockDelimiter.noConfusion h)⟩

/-- C2 counterexample: a non-empty whitespace-only document does NOT
produce zero blocks with the default spec — `asBlocks " "` is one block
containing a single empty line, because the emptiness test inspects the
original (untrimmed) string. -/
theorem claim2_counterexample :
    asBlocks [' '] .DoubleLineGeneric = .ok [[[]]] ∧
    asBlocks [' '] .DoubleLineGeneric ≠ .ok [] := by
  refine ⟨rfl, ?_⟩
  intro h
  rw [show asBlocks [' '] .DoubleLineGeneric = .ok [[[]]] from rfl] at h
  exact (by decide : ([[[]]] : List (List (List Char))) ≠ []) (Except.ok.inj h)

/-- C2 (amended): for every non-empty document consisting solely of
whitespace characters, `asBlocks` with the default delimiter spec returns
exactly ONE block containing a single empty line (not zero blocks). -/
theorem claim2_whitespace_only (d : List Char) (hd : d ≠ [])
    (hws : ∀ c ∈ d, isRustWhitespace c = true) :
    asBlocks d .DoubleLineGeneric = .ok [[[]]] := by
  have ht : trim d = [] := trim_eq_nil hws
  cases hc : d.contains '\r' with
  | false =>
    have hres : delimiters (d.contains '\r') .DoubleLineGeneric =
        .ok (['\n'], ['\n', '\n']) := by rw [hc]; rfl
    rw [asBlocks_eq_of_ok hres hd, ht, splitOnStr_nil (by simp)]
    simp [trim_nil, splitOnStr_nil]
  | true =>
    have hres : delimiters (d.contains '\r') .DoubleLineGeneric =
        .ok (['\r', '\n'], ['\r', '\n', '\r', '\n']) := by rw [hc]; rfl
    rw [asBlocks_eq_of_ok hres hd, ht, splitOnStr_nil (by simp)]
    simp [trim_nil, splitOnStr_nil]

/-- C2 witness: the amended theorem applied to the one-space document. -/
theorem claim2_witness :
    ([' '] ≠ ([] : List Char)) ∧ (∀ c ∈ [' '], isRustWhitespace c = true) ∧
    asBlocks [' '] .DoubleLineGeneric = .ok [[[]]] :=
  ⟨by decide, by decide, claim2_whitespace_only [' '] (by decide) (by decide)⟩

/-- C3: for every document, delimiter spec other than `Pattern`, and
line-transform `f`, `blockParseLines` equals `asBlocks` with every line
replaced by `f` of that line, in the same block and line order; in
particular with the identity transform it equals `asBlocks`. -/
theorem claim3_blockParseLines (d : List Char) (spec : BlockDelimiter) {A : Type}
    (f : List Char → A) (h : ∀ q, spec ≠ BlockDelimiter.Pattern q) :
    blockParseLines d spec f = Except.map (List.map (List.map f)) (asBlocks d spec) ∧
    blockParseLines d spec (fun l => l) = asBlocks d spec := by
  obtain ⟨ld, bd, hok⟩ := delimiters_ok (d.contains '\r') h
  by_cases hd : d = []
  · subst hd
    have hc : List.contains ([] : List Char) '\r' = false := rfl
    rw [hc] at hok
    unfold blockParseLines asBlocks
    rw [hc, hok]
    simp [Except.map]
  · rw [asBlocks_eq_of_ok hok hd, blockParseLines_eq_of_ok f hok hd,
      blockParseLines_eq_of_ok (fun l => l) hok hd]
    constructor
    · simp [Except.map, List.map_map, Function.comp]
    · simp

/-- C3 witness: the theorem applied to a two-block document and the
line-length transform. -/
theorem claim3_witness :
    (∀ q, BlockDelimiter.DoubleLineGeneric ≠ BlockDelimiter.Pattern q) ∧
    (blockParseLines ['a', '\n', '\n', 'b', 'c'] .DoubleLineGeneric List.length =
       Except.map (List.map (List.map List.length))
         (asBlocks ['a', '\n', '\n', 'b', 'c'] .DoubleLineGeneric) ∧
     blockParseLines ['a', '\n', '\n', 'b', 'c'] .DoubleLineGeneric (fun l => l) =
       asBlocks ['a', '\n', '\n', 'b', 'c'] .DoubleLineGeneric) :=
  ⟨fun _ h => BlockDelimiter.noConfusion h,
   claim3_blockParseLines ['a', '\n', '\n', 'b', 'c'] .DoubleLineGeneric List.length
     (fun _ h => BlockDelimiter.noConfusion h)⟩

/-- C1 counterexample: `blockParse` does not trim each block segment before
splitting it into lines, while `asBlocks` does.  On `"a \n\nb"` with
identity transforms, `blockParse` keeps the trailing space (`["a "]`) while
`asBlocks` trims it (`["a"]`), so `block_parse` with identity transforms is
NOT `as_blocks`. -/
theorem claim1_counterexample :
    blockParse ['a', ' ', '\n', '\n', 'b'] .DoubleLineGeneric
      (fun l => l) (fun b => b) = .ok [[['a', ' ']], [['b']]] ∧
    asBlocks ['a', ' ', '\n', '\n', 'b'] .DoubleLineGeneric = .ok [[['a']], [['b']]] ∧
    blockParse ['a', ' ', '\n', '\n', 'b'] .DoubleLineGeneric
      (fun l => l) (fun b => b) ≠
      asBlocks ['a', ' ', '\n', '\n', 'b'] .DoubleLineGeneric := by
  refine ⟨rfl, rfl, ?_⟩
  intro h
  rw [show blockParse ['a', ' ', '\n', '\n', 'b'] .DoubleLineGeneric
      (fun l => l) (fun b => b) = .ok [[['a', ' ']], [['b']]] from rfl,
    show asBlocks ['a', ' ', '\n', '\n', 'b'] .DoubleLineGeneric =
      .ok [[['a']], [['b']]] from rfl] at h
  exact (by decide : ([[['a', ' ']], [['b']]] : List (List (List Char))) ≠
    [[['a']], [['b']]]) (Except.ok.inj h)

/-- C1 (amended): `blockParse` maps each block segment's lines through the
line-transform and applies the block-transform exactly once per block, but
the segment is split WITHOUT per-segment trimming; whenever every block
segment of the trimmed document is trim-invariant (no leading or trailing
whitespace inside a segment), `blockParse` equals mapping the line- and
block-transform over `asBlocks`, and with identity transforms it equals
`asBlocks`. -/
theorem claim1_blockParse (d ld bd : List Char) (spec : BlockDelimiter)
    {A B : Type} (lp : List Char → A) (bp : List A → B)
    (hres : delimiters (d.contains '\r') spec = .ok (ld, bd))
    (hseg : ∀ seg ∈ splitOnStr bd (trim d), trim seg = seg) :
    blockParse d spec lp bp =
      Except.map (List.map fun b => bp (List.map lp b)) (asBlocks d spec) ∧
    blockParse d spec (fun l => l) (fun b => b) = asBlocks d spec := by
  by_cases hd : d = []
  · subst hd
    have hc : List.contains ([] : List Char) '\r' = false := rfl
    rw [hc] at hres
    unfold blockParse asBlocks
    rw [hc, hres]
    simp [Except.map]
  · rw [asBlocks_eq_of_ok hres hd, blockParse_eq_of_ok lp bp hres hd,
      blockParse_eq_of_ok (fun l => l) (fun b => b) hres hd]
    constructor
    · simp only [Except.map, List.map_map]
      congr 1
      apply List.map_congr_left
      intro x hx
      simp [Function.comp, hseg x hx]
    · simp only [List.map_map]
      congr 1
      apply List.map_congr_left
      intro x hx
      simp [Function.comp, hseg x hx]

/-- C1 witness: the amended theorem applied to `"a\n\nb"` with identity
transforms. -/
theorem claim1_witness :
    (delimiters (['a', '\n', '\n', 'b'].contains '\r') BlockDelimiter.DoubleLineGeneric =
      .ok (['\n'], ['\n', '\n'])) ∧
    (∀ seg ∈ splitOnStr ['\n', '\n'] (trim ['a', '\n', '\n', 'b']), trim seg = seg) ∧
    blockParse ['a', '\n', '\n', 'b'] .DoubleLineGeneric (fun l => l) (fun b => b) =
      asBlocks ['a', '\n', '\n', 'b'] .DoubleLineGeneric :=
  ⟨rfl, by decide,
   (claim1_blockParse ['a', '\n', '\n', 'b'] ['\n'] ['\n', '\n']
     .DoubleLineGeneric (fun l => l) (fun b => b) rfl (by decide)).2⟩

/-- C4: for every non-empty document in which the resolved block delimiter
does not occur (as a substring), `asBlocks` returns exactly one block
containing all of the (trimmed) document's lines in document order. -/
theorem claim4_single_block (d ld bd : List Char) (spec : BlockDelimiter)
    (hd : d ≠ [])
    (hres : delimiters (d.contains '\r') spec = .ok (ld, bd))
    (hocc : ¬ bd <:+: d) :
    asBlocks d spec = .ok [splitOnStr ld (trim d)] := by
  have h1 : ¬ bd <:+: trim d := fun hin => hocc (hin.trans (trim_infix_self d))
  rw [asBlocks_eq_of_ok hres hd, splitOnStr_eq_single h1]
  simp [trim_idem]

/-- C4 witness: the theorem applied to `"a\nb"` with the default spec,
yielding the single block `[["a"], ["b"]]`. -/
theorem claim4_witness :
    (['a', '\n', 'b'] ≠ ([] : List Char)) ∧
    (delimiters (['a', '\n', 'b'].contains '\r') BlockDelimiter.DoubleLineGeneric =
      .ok (['\n'], ['\n', '\n'])) ∧
    (¬ ['\n', '\n'] <:+: ['a', '\n', 'b']) ∧
    asBlocks ['a', '\n', 'b'] .DoubleLineGeneric = .ok [[['a'], ['b']]] :=
  ⟨by decide, rfl, by decide,
   (claim4_single_block ['a', '\n', 'b'] ['\n'] ['\n', '\n'] .DoubleLineGeneric
     (by decide) rfl (by decide)).trans rfl⟩

/-- C7 counterexample: a trailing explicit NON-whitespace block delimiter
does produce a trailing empty block (`"abc***"` with delimiter `"***"`
yields `[["abc"], [""]]`, not `[["abc"]]`), and even with the default spec
a trailing `"\r\n\r\n"` on an otherwise CR-free document changes the
resolved line delimiter and hence the whole output. -/
theorem claim7_counterexample :
    asBlocks ['a', 'b', 'c', '*', '*', '*'] (.Delimiter ['*', '*', '*']) =
      .ok [[['a', 'b', 'c']], [[]]] ∧
    asBlocks ['a', 'b', 'c'] (.Delimiter ['*', '*', '*']) = .ok [[['a', 'b', 'c']]] ∧
    asBlocks ['a', 'b', 'c', '*', '*', '*'] (.Delimiter ['*', '*', '*']) ≠
      asBlocks ['a', 'b', 'c'] (.Delimiter ['*', '*', '*']) ∧
    asBlocks ['a', '\n', 'b', '\r', '\n', '\r', '\n'] .DoubleLineGeneric ≠
      asBlocks ['a', '\n', 'b'] .DoubleLineGeneric := by
  refine ⟨rfl, rfl, ?_, ?_⟩
  · intro h
    rw [show asBlocks ['a', 'b', 'c', '*', '*', '*'] (.Delimiter ['*', '*', '*']) =
        .ok [[['a', 'b', 'c']], [[]]] from rfl,
      show asBlocks ['a', 'b', 'c'] (.Delimiter ['*', '*', '*']) =
        .ok [[['a', 'b', 'c']]] from rfl] at h
    exact (by decide : ([[['a', 'b', 'c']], [[]]] : List (List (List Char))) ≠
      [[['a', 'b', 'c']]]) (Except.ok.inj h)
  · intro h
    rw [show asBlocks ['a', '\n', 'b', '\r', '\n', '\r', '\n'] .DoubleLineGeneric =
        .ok [[['a', '\n', 'b']]] from rfl,
      show asBlocks ['a', '\n', 'b'] .DoubleLineGeneric =
        .ok [[['a'], ['b']]] from rfl] at h
    exact (by decide : ([[['a', '\n', 'b']]] : List (List (List Char))) ≠
      [[['a'], ['b']]]) (Except.ok.inj h)

/-- C7 (amended): for a non-empty document, if the resolved block delimiter
consists solely of whitespace and appending one trailing occurrence of it
does not change the document's carriage-return presence, then `asBlocks` on
the document with the trailing delimiter equals `asBlocks` on the document
without it — in particular no trailing empty block is produced. -/
theorem claim7_trailing_delimiter (d ld bd : List Char) (spec : BlockDelimiter)
    (hd : d ≠ [])
    (hres : delimiters (d.contains '\r') spec = .ok (ld, bd))
    (hws : ∀ c ∈ bd, isRustWhitespace c = true)
    (hcr : (d ++ bd).contains '\r' = d.contains '\r') :
    asBlocks (d ++ bd) spec = asBlocks d spec := by
  have hne : d ++ bd ≠ [] := by
    intro h
    exact hd (List.append_eq_nil.mp h).1
  have hres2 : delimiters ((d ++ bd).contains '\r') spec = .ok (ld, bd) := by
    rw [hcr, hres]
  rw [asBlocks_eq_of_ok hres hd, asBlocks_eq_of_ok hres2 hne,
    trim_append_ws d hws]

/-- C7 witness: the amended theorem applied to `"abc"` plus a trailing
`"\n\n"` with the default spec. -/
theorem claim7_witness :
    (['a', 'b', 'c'] ≠ ([] : List Char)) ∧
    (delimiters (['a', 'b', 'c'].contains '\r') BlockDelimiter.DoubleLineGeneric =
      .ok (['\n'], ['\n', '\n'])) ∧
    (∀ c ∈ ['\n', '\n'], isRustWhitespace c = true) ∧
    ((['a', 'b', 'c'] ++ ['\n', '\n']).contains '\r' = ['a', 'b', 'c'].contains '\r') ∧
    asBlocks (['a', 'b', 'c'] ++ ['\n', '\n']) .DoubleLineGeneric =
      asBlocks ['a', 'b', 'c'] .DoubleLineGeneric :=
  ⟨by decide, rfl, by decide, by decide,
   claim7_trailing_delimiter ['a', 'b', 'c'] ['\n'] ['\n', '\n']
     .DoubleLineGeneric (by decide) rfl (by decide) (by decide)⟩

theorem joinSep_map_trim_of_nil (bd : List Char) :
    joinSep bd ((splitOnStr bd []).map trim) = [] := by
  by_cases hbd : bd = []
  · subst hbd
    rfl
  · rw [splitOnStr_nil hbd]
    rfl

/-- C9: for every document (including the empty one) and delimiter spec
other than `Pattern`, joining the lines of each block of `asBlocks` with
the resolved line delimiter and the blocks with the resolved block
delimiter reconstructs the trimmed document with each block segment
replaced by its trimmed form — i.e. the round trip is exact modulo the
whitespace trimmed at the start and end of each block segment, and it is
exactly the trimmed document whenever every segment is trim-invariant. -/
theorem claim9_round_trip (d ld bd : List Char) (spec : BlockDelimiter)
    (bs : List (List (List Char)))
    (hres : delimiters (d.contains '\r') spec = .ok (ld, bd))
    (hblocks : asBlocks d spec = .ok bs) :
    joinSep bd (bs.map (joinSep ld)) =
      joinSep bd ((splitOnStr bd (trim d)).map trim) ∧
    ((∀ seg ∈ splitOnStr bd (trim d), trim seg = seg) →
      joinSep bd (bs.map (joinSep ld)) = trim d) := by
  by_cases hd : d = []
  · subst hd
    have hc : List.contains ([] : List Char) '\r' = false := rfl
    rw [hc] at hres
    have hb0 : asBlocks [] spec = .ok [] := by
      unfold asBlocks
      rw [hc, hres]
      simp
    rw [hb0] at hblocks
    have hbs : bs = [] := (Except.ok.inj hblocks).symm
    subst hbs
    refine ⟨?_, fun _ => rfl⟩
    rw [trim_nil, joinSep_map_trim_of_nil]
    rfl
  rw [asBlocks_eq_of_ok hres hd] at hblocks
  have hbs : bs = (splitOnStr bd (trim d)).map fun x => splitOnStr ld (trim x) :=
    (Except.ok.inj hblocks).symm
  subst hbs
  have hmap : (((splitOnStr bd (trim d)).map fun x =>
      splitOnStr ld (trim x)).map (joinSep ld)) =
      (splitOnStr bd (trim d)).map trim := by
    rw [List.map_map]
    apply List.map_congr_left
    intro x _
    exact joinSep_splitOnStr ld (trim x)
  refine ⟨by rw [hmap], ?_⟩
  intro hseg
  rw [hmap, List.map_congr_left hseg]
  simp only [show (List.map (fun a => a) (splitOnStr bd (trim d)) =
    splitOnStr bd (trim d)) from List.map_id' _]
  exact joinSep_splitOnStr bd (trim d)

/-- C9 witness: the theorem applied to `"a\n\nb"` with the default spec:
the joined output round-trips to the trimmed document itself. -/
theorem claim9_witness :
    (delimiters (['a', '\n', '\n', 'b'].contains '\r') BlockDelimiter.DoubleLineGeneric =
      .ok (['\n'], ['\n', '\n'])) ∧
    (asBlocks ['a', '\n', '\n', 'b'] .DoubleLineGeneric = .ok [[['a']], [['b']]]) ∧
    joinSep ['\n', '\n'] (([[['a']], [['b']]] : List (List (List Char))).map
      (joinSep ['\n'])) =
      joinSep ['\n', '\n'] ((splitOnStr ['\n', '\n']
        (trim ['a', '\n', '\n', 'b'])).map trim) :=
  ⟨rfl, rfl,
   (claim9_round_trip ['a', '\n', '\n', 'b'] ['\n'] ['\n', '\n']
     .DoubleLineGeneric [[['a']], [['b']]] rfl rfl).1⟩

/-- C10: for every non-empty document and delimiter spec other than
`Pattern`, `asBlocks` succeeds with at least one block and every block
contains at least one line (possibly the empty line); the same outer and
inner non-emptiness holds for `blockParseLines`. -/
theorem claim10_nonempty (d : List Char) (spec : BlockDelimiter) {A : Type}
    (f : List Char → A) (hd : d ≠ [])
    (hnp : ∀ q, spec ≠ BlockDelimiter.Pattern q) :
    (∃ bs, asBlocks d spec = .ok bs ∧ bs ≠ [] ∧ ∀ b ∈ bs, b ≠ []) ∧
    (∃ cs, blockParseLines d spec f = .ok cs ∧ cs ≠ [] ∧ ∀ c ∈ cs, c ≠ []) := by
  obtain ⟨ld, bd, hok⟩ := delimiters_ok (d.contains '\r') hnp
  have hsegs : splitOnStr bd (trim d) ≠ [] := splitOnStr_ne_nil _ _
  constructor
  · refine ⟨_, asBlocks_eq_of_ok hok hd, ?_, ?_⟩
    · simpa [List.map_eq_nil_iff] using hsegs
    · intro b hb
      obtain ⟨x, _, hx⟩ := List.mem_map.mp hb
      rw [← hx]
      exact splitOnStr_ne_nil _ _
  · refine ⟨_, blockParseLines_eq_of_ok f hok hd, ?_, ?_⟩
    · simpa [List.map_eq_nil_iff] using hsegs
    · intro c hc
      obtain ⟨x, _, hx⟩ := List.mem_map.mp hc
      rw [← hx]
      simpa [List.map_eq_nil_iff] using splitOnStr_ne_nil ld (trim x)

/-- C10 witness: the theorem applied to the one-character document `"a"`
with the default spec and the line-length transform. -/
theorem claim10_witness :
    (['a'] ≠ ([] : List Char)) ∧
    (∀ q, BlockDelimiter.DoubleLineGeneric ≠ BlockDelimiter.Pattern q) ∧
    ((∃ bs, asBlocks ['a'] .DoubleLineGeneric = .ok bs ∧ bs ≠ [] ∧
       ∀ b ∈ bs, b ≠ []) ∧
     (∃ cs, blockParseLines ['a'] .DoubleLineGeneric List.length = .ok cs ∧
       cs ≠ [] ∧ ∀ c ∈ cs, c ≠ [])) :=
  ⟨by decide, fun _ h => BlockDelimiter.noConfusion h,
   claim10_nonempty ['a'] .DoubleLineGeneric List.length (by decide)
     (fun _ h => BlockDelimiter.noConfusion h)⟩

end Textblocks
